import Mathlib

/-!
Verification of the response-formatting pipeline and the utterance-playback
controller of the Agent-Artips voice chat client.

The definitions below are a shallow embedding of the TypeScript sources:
* the webhook response formatter (formatResponseText, cleanHtmlAndFormatText
  and the inline empty-response check of sendMessageToWebhook), and
* the speech-synthesis controller of useSpeechSynthesis.ts
  (processTextForSpeech, splitIntoSentences, speak, speakNextChunk and the
  utterance callbacks), modelled as an explicit event-step machine.

JavaScript strings are modelled as Lean String / List Char; every regular
expression used by the source is implemented directly as a scanner with the
exact matching semantics of the JS regex (leftmost match, greedy/lazy
quantifiers as written, the dot not matching newlines, global replacement
continuing after each match).
-/

/-! ## JavaScript character classes and string primitives -/

/-- The character set matched by the JS regex class backslash-s and removed by
String.prototype.trim (ECMA-262 WhiteSpace and LineTerminator). -/
def isJsSpace (c : Char) : Bool :=
  c = ' ' || c = '\t' || c = '\n' || c = '\r' ||
  c = Char.ofNat 0x0B || c = Char.ofNat 0x0C ||
  c = Char.ofNat 0xA0 || c = Char.ofNat 0x1680 ||
  (0x2000 ≤ c.toNat && c.toNat ≤ 0x200A) ||
  c = Char.ofNat 0x2028 || c = Char.ofNat 0x2029 ||
  c = Char.ofNat 0x202F || c = Char.ofNat 0x205F ||
  c = Char.ofNat 0x3000 || c = Char.ofNat 0xFEFF

/-- Remove trailing characters satisfying isJsSpace. -/
def trimRightL : List Char → List Char
  | [] => []
  | c :: cs =>
    let r := trimRightL cs
    if r.isEmpty && isJsSpace c then [] else c :: r

/-- JS String.prototype.trim on a character list. -/
def jsTrimL (l : List Char) : List Char :=
  trimRightL (l.dropWhile isJsSpace)

/-- JS String.prototype.trim. -/
def jsTrim (s : String) : String :=
  String.mk (jsTrimL s.data)

/-- JS String.prototype.startsWith for a literal prefix. -/
def startsWithL (p l : List Char) : Bool :=
  p.isPrefixOf l

def jsStartsWith (s p : String) : Bool :=
  startsWithL p.data s.data

/-- JS String.prototype.includes for a literal needle. -/
def containsSubL (needle : List Char) : List Char → Bool
  | [] => needle.isEmpty
  | c :: cs => needle.isPrefixOf (c :: cs) || containsSubL needle cs

def jsIncludes (s needle : String) : Bool :=
  containsSubL needle.data s.data

/-! ## A generic global-replacement scanner

replScan models String.prototype.replace with a /g regex: scan left to
right; at each position ask the matcher for a match starting there; on a
match emit the replacement and continue after the consumed characters
(the replacement is not rescanned); otherwise emit the character and move
one position right.  The matcher returns the replacement together with the
total number of characters consumed (always at least one for the patterns
used here).  Fuel bounds the recursion; callers pass the list length, which
suffices because every step consumes at least one character. -/

def replScan (m : List Char → Option (List Char × List Char)) :
    Nat → List Char → List Char
  | 0, l => l
  | _ + 1, [] => []
  | f + 1, c :: cs =>
    match m (c :: cs) with
    | some (r, rest) => r ++ replScan m f rest
    | none => c :: replScan m f cs

/-- Matcher for a literal pattern (case-sensitive). -/
def litMatcher (pat repl : List Char) (l : List Char) :
    Option (List Char × List Char) :=
  if pat ≠ [] && pat.isPrefixOf l then some (repl, l.drop pat.length)
  else none

/-- Replace every occurrence of a literal pattern, as JS replace with a /g
regex whose pattern is that literal. -/
def replaceLit (pat repl : String) (l : List Char) : List Char :=
  replScan (litMatcher pat.data repl.data) l.length l

/-- Case-insensitive prefix test (ASCII folding, as the /i flag on the
letter-only tag patterns of the source). -/
def isPrefixCI : List Char → List Char → Bool
  | [], _ => true
  | _ :: _, [] => false
  | p :: ps, c :: cs => p.toLower = c.toLower && isPrefixCI ps cs

/-- Matcher trying a list of case-insensitive literal alternatives in order,
as a JS alternation of literals under the /gi flags. -/
def altCIMatcher (pats : List (List Char)) (repl : List Char)
    (l : List Char) : Option (List Char × List Char) :=
  match pats.find? (fun p => isPrefixCI p l) with
  | some p => some (repl, l.drop p.length)
  | none => none

def replaceCIAlts (pats : List String) (repl : String) (l : List Char) :
    List Char :=
  replScan (altCIMatcher (pats.map String.data) repl.data) l.length l

/-! ## The speech-side text pipeline (useSpeechSynthesis.ts) -/

/-- Matcher for a run of at least min copies of character a
(the JS patterns with one or more hashes, and three-or-more dashes). -/
def runMatcher (a : Char) (min : Nat) (repl : List Char) (l : List Char) :
    Option (List Char × List Char) :=
  let n := (l.takeWhile (fun c => c = a)).length
  if min ≤ n && 0 < n then some (repl, l.drop n) else none

/-- Matcher for the JS pattern of one-or-more whitespace characters,
replaced by a single space. -/
def wsRunMatcher (l : List Char) : Option (List Char × List Char) :=
  let n := (l.takeWhile isJsSpace).length
  if 0 < n then some ([' '], l.drop n) else none

/-- Matcher for an HTML tag with at least one character inside the angle
brackets (the source uses that pattern, with a plus, in
processTextForSpeech). -/
def tagPlusMatcher (repl : List Char) :
    List Char → Option (List Char × List Char)
  | '<' :: rest =>
    let inner := rest.takeWhile (fun c => c ≠ '>')
    if inner.length = 0 then none
    else if inner.length < rest.length then
      some (repl, rest.drop (inner.length + 1))
    else none
  | _ => none

/-- Matcher for an HTML tag with any (possibly empty) inside, used by the
remaining-tag sweep of cleanHtmlAndFormatText (pattern with a star). -/
def tagStarMatcher : List Char → Option (List Char × List Char)
  | '<' :: rest =>
    let inner := rest.takeWhile (fun c => c ≠ '>')
    if inner.length < rest.length then
      some ([], rest.drop (inner.length + 1))
    else none
  | _ => none

/-- processTextForSpeech from useSpeechSynthesis.ts: strips markdown heading
markers, horizontal rules, bold-marker runs, normalizes ellipses to periods,
removes HTML tags and emphasis punctuation, collapses whitespace, trims. -/
def processTextForSpeech (text : String) : String :=
  let l := text.data
  let l := replScan (runMatcher '#' 1 [' ']) l.length l
  let l := replScan (runMatcher '-' 3 [' ']) l.length l
  let l := replaceLit "***" " " l
  let l := replaceLit "..." "." l
  let l := replScan (tagPlusMatcher [' ']) l.length l
  let l := l.map (fun c =>
    if c = '*' || c = '_' || c = '~' || c = Char.ofNat 0x60 then ' ' else c)
  let l := replScan wsRunMatcher l.length l
  String.mk (jsTrimL l)

/-- Is c one of the terminal punctuation characters of the sentence regex. -/
def isTerminalPunct (c : Char) : Bool :=
  c = '.' || c = '!' || c = '?'

/-- One step of the global sentence match: at a position whose character is
not terminal punctuation, the regex consumes a maximal run of
non-terminal characters, then an optional terminal character, then a
maximal run of whitespace. -/
def sentenceMatches : Nat → List Char → List (List Char)
  | 0, _ => []
  | _ + 1, [] => []
  | f + 1, c :: cs =>
    if isTerminalPunct c then sentenceMatches f cs
    else
      let body := (c :: cs).takeWhile (fun x => !isTerminalPunct x)
      let rest := (c :: cs).drop body.length
      match rest with
      | p :: rest2 =>
        -- rest starts with a terminal character (by maximality of body)
        let ws := rest2.takeWhile isJsSpace
        sentenceMatches f (rest2.drop ws.length) |>.cons (body ++ p :: ws)
      | [] => [body]

/-- splitIntoSentences from useSpeechSynthesis.ts: the global match of the
sentence regex, each match trimmed and empty matches dropped; when the
regex finds no match at all (String.prototype.match returns null) the
whole text is returned as a single chunk, untrimmed and unfiltered. -/
def splitIntoSentences (text : String) : List String :=
  let ms := sentenceMatches (text.data.length + 1) text.data
  match ms with
  | [] => [text]
  | _ => (ms.map (fun m => String.mk (jsTrimL m))).filter
      (fun s => s.length > 0)

example : splitIntoSentences "Hello world. How are you? Fine!" =
    ["Hello world.", "How are you?", "Fine!"] := by decide

example : splitIntoSentences "" = [""] := by decide

example : splitIntoSentences " " = [] := by decide

example : processTextForSpeech "***" = "" := by decide

/-! ## The cleaning pipeline (cleanHtmlAndFormatText) -/

/-- Matcher for the br-tag pattern of the source (case-insensitive, optional
whitespace and optional slash before the closing angle bracket). -/
def brMatcher : List Char → Option (List Char × List Char)
  | '<' :: b :: r :: rest =>
    if b.toLower = 'b' && r.toLower = 'r' then
      match rest.dropWhile isJsSpace with
      | '/' :: '>' :: r2 => some (['\n'], r2)
      | '>' :: r2 => some (['\n'], r2)
      | _ => none
    else none
  | _ => none

/-- Matcher for an opening heading tag h1 through h6 (case-insensitive). -/
def hOpenMatcher : List Char → Option (List Char × List Char)
  | '<' :: h :: d :: '>' :: rest =>
    if h.toLower = 'h' && '1'.toNat ≤ d.toNat && d.toNat ≤ '6'.toNat then
      some (['\n', '\n'], rest)
    else none
  | _ => none

/-- Matcher for a closing heading tag (case-insensitive). -/
def hCloseMatcher : List Char → Option (List Char × List Char)
  | '<' :: '/' :: h :: d :: '>' :: rest =>
    if h.toLower = 'h' && '1'.toNat ≤ d.toNat && d.toNat ≤ '6'.toNat then
      some (['\n'], rest)
    else none
  | _ => none

/-- Lazy search for a closing pair of two copies of a: returns the captured
inner text (which may not contain a newline, since the JS dot does not
match newlines) and the input after the closing pair. -/
def findClose2 (a : Char) : List Char → Option (List Char × List Char)
  | [] => none
  | c :: cs =>
    if c = a && cs.head? = some a then some ([], cs.tail)
    else if c = '\n' then none
    else
      match findClose2 a cs with
      | some (i, r) => some (c :: i, r)
      | none => none

/-- Lazy search for a single closing copy of a, newline-bounded. -/
def findClose1 (a : Char) : List Char → Option (List Char × List Char)
  | [] => none
  | c :: cs =>
    if c = a then some ([], cs)
    else if c = '\n' then none
    else
      match findClose1 a cs with
      | some (i, r) => some (c :: i, r)
      | none => none

/-- Matcher for the markdown patterns with a doubled delimiter (double star,
double underscore): lazy capture kept, delimiters dropped. -/
def pairMatcher (a : Char) : List Char → Option (List Char × List Char)
  | c1 :: c2 :: rest =>
    if c1 = a && c2 = a then
      match findClose2 a rest with
      | some (inner, after) => some (inner, after)
      | none => none
    else none
  | _ => none

/-- Matcher for the single-delimiter markdown patterns (star, underscore). -/
def singleMatcher (a : Char) : List Char → Option (List Char × List Char)
  | c :: rest =>
    if c = a then
      match findClose1 a rest with
      | some (inner, after) => some (inner, after)
      | none => none
    else none
  | _ => none

/-- Lazy search for a closing parenthesis, newline-bounded (the url part of
the markdown link pattern, whose capture is discarded). -/
def findParenClose : List Char → Option (List Char)
  | [] => none
  | c :: cs =>
    if c = ')' then some cs
    else if c = '\n' then none
    else findParenClose cs

/-- Lazy search, with backtracking, for the link-text closing bracket: the
earliest close bracket directly followed by an open parenthesis such that a
closing parenthesis occurs before a newline.  Returns the captured link
text and the input after the whole match. -/
def findLinkClose : List Char → Option (List Char × List Char)
  | [] => none
  | c :: cs =>
    if c = ']' && cs.head? = some '(' then
      match findParenClose cs.tail with
      | some r => some ([], r)
      | none =>
        match findLinkClose cs with
        | some (i, r) => some (c :: i, r)
        | none => none
    else if c = '\n' then none
    else
      match findLinkClose cs with
      | some (i, r) => some (c :: i, r)
      | none => none

/-- Matcher for the markdown link pattern: bracketed text kept, url part
dropped. -/
def linkMatcher : List Char → Option (List Char × List Char)
  | '[' :: rest =>
    match findLinkClose rest with
    | some (inner, after) => some (inner, after)
    | none => none
  | _ => none

/-- Replace runs of three or more newlines by exactly two, as the JS
replacement of three-or-more newlines; one match consumes the whole run. -/
def collapseNL : Nat → List Char → List Char
  | 0, l => l
  | _ + 1, [] => []
  | f + 1, c :: cs =>
    if c = '\n' ∧ cs.head? = some '\n' ∧ cs.tail.head? = some '\n' then
      '\n' :: '\n' :: collapseNL f (cs.dropWhile (fun x => x = '\n'))
    else c :: collapseNL f cs

def unescapeNewlines (l : List Char) : List Char := replaceLit "\\n" "\n" l

def unescapeQuotes (l : List Char) : List Char := replaceLit "\\\"" "\"" l

/-- Try the output-field regex at the given position: the quoted word
output, optional whitespace, a colon, optional whitespace, then a quoted
capture of non-quote characters (the closing quote is required). -/
def tryOutputAt (l : List Char) : Option (List Char) :=
  if ("\"output\"".data).isPrefixOf l then
    match (l.drop 8).dropWhile isJsSpace with
    | ':' :: r2 =>
      match r2.dropWhile isJsSpace with
      | '"' :: r4 =>
        let cap := r4.takeWhile (fun c => c ≠ '"')
        if cap.length < r4.length then some cap else none
      | _ => none
    | _ => none
  else none

/-- Leftmost match of the output-field regex over the whole text. -/
def outputCapture : Nat → List Char → Option (List Char)
  | 0, _ => none
  | _ + 1, [] => none
  | f + 1, c :: cs =>
    match tryOutputAt (c :: cs) with
    | some cap => some cap
    | none => outputCapture f cs

/-- First step of cleanHtmlAndFormatText: strip a literal leading
Response: label and trim. -/
def stripResponseLabel (text : String) : String :=
  if jsStartsWith text "Response:" then
    jsTrim (String.mk (text.data.drop 9))
  else text

/-- Second step of cleanHtmlAndFormatText: if the trimmed text starts with
an open brace and the text contains a quoted output key, extract the
field value via the regex (a nonempty capture is required, since the JS
code tests the captured group for truthiness) and unescape escaped
newlines and quotes inside it. -/
def extractOutputField (text : String) : String :=
  if startsWithL ['\x7b'] (jsTrimL text.data) && jsIncludes text "\"output\"" then
    match outputCapture (text.data.length + 1) text.data with
    | some cap =>
      if cap.isEmpty then text
      else String.mk (unescapeQuotes (unescapeNewlines cap))
    | none => text
  else text

/-- The tail of cleanHtmlAndFormatText after label stripping and output
extraction: unescaping, tag conversion, markdown stripping, newline
collapsing and trimming, in the exact order of the source. -/
def cleanAfterExtract (text : String) : String :=
  let l := text.data
  let l := unescapeNewlines l
  let l := unescapeQuotes l
  let l := replScan brMatcher l.length l
  let l := replaceCIAlts ["<p>"] "\n" l
  let l := replaceCIAlts ["</p>"] "\n" l
  let l := replaceCIAlts ["<li>"] "\n• " l
  let l := replaceCIAlts ["</li>"] "" l
  let l := replaceCIAlts ["<ul>"] "\n" l
  let l := replaceCIAlts ["</ul>"] "\n" l
  let l := replaceCIAlts ["<ol>"] "\n" l
  let l := replaceCIAlts ["</ol>"] "\n" l
  let l := replScan hOpenMatcher l.length l
  let l := replScan hCloseMatcher l.length l
  let l := replaceCIAlts ["<strong>", "<b>"] "" l
  let l := replaceCIAlts ["</strong>", "</b>"] "" l
  let l := replaceCIAlts ["<em>", "<i>"] "" l
  let l := replaceCIAlts ["</em>", "</i>"] "" l
  let l := replScan tagStarMatcher l.length l
  let l := replScan (pairMatcher '*') l.length l
  let l := replScan (singleMatcher '*') l.length l
  let l := replScan (pairMatcher '_') l.length l
  let l := replScan (singleMatcher '_') l.length l
  let l := replScan linkMatcher l.length l
  let l := collapseNL l.length l
  String.mk (jsTrimL l)

/-- cleanHtmlAndFormatText from the webhook service source. -/
def cleanHtmlAndFormatText (text : String) : String :=
  cleanAfterExtract (extractOutputField (stripResponseLabel text))

example : cleanHtmlAndFormatText "**bold** and *it*" = "bold and it" := by
  decide

example : cleanHtmlAndFormatText "<p>Hi</p>" = "Hi" := by decide

example : cleanHtmlAndFormatText "a\\nb" = "a\nb" := by decide

example : cleanHtmlAndFormatText "Response: x" = "x" := by decide

example : cleanHtmlAndFormatText "[text](url)" = "text" := by decide

example : cleanHtmlAndFormatText "a\n\n\n\n\nb" = "a\n\nb" := by decide

example : cleanHtmlAndFormatText "<li>one<li>two" = "• one\n• two" := by
  decide

/-! ## A JSON value model and an executable parser

formatResponseText calls JSON.parse; we model parsed values with the Json
type and implement the JSON grammar directly.  Numbers keep their source
literal (JSON.stringify re-serializes the parsed double, which coincides
with the literal for canonical integer literals, the only numbers used in
concrete inputs here).  Escaped surrogate code points are rejected, as Lean
characters cannot represent them. -/

mutual

inductive Json where
  | null : Json
  | bool (b : Bool) : Json
  | num (raw : String) : Json
  | str (s : String) : Json
  | arr (elems : JsonArr) : Json
  | obj (fields : JsonObj) : Json

inductive JsonArr where
  | nil : JsonArr
  | cons (hd : Json) (tl : JsonArr) : JsonArr

inductive JsonObj where
  | nil : JsonObj
  | cons (key : String) (value : Json) (tl : JsonObj) : JsonObj

end

def JsonArr.ofList : List Json → JsonArr
  | [] => JsonArr.nil
  | j :: r => JsonArr.cons j (JsonArr.ofList r)

def JsonObj.ofList : List (String × Json) → JsonObj
  | [] => JsonObj.nil
  | (k, v) :: r => JsonObj.cons k v (JsonObj.ofList r)

/-- JSON insignificant whitespace (strictly smaller than the JS trim set). -/
def isJsonWs (c : Char) : Bool :=
  c = ' ' || c = '\t' || c = '\n' || c = '\r'

def hexVal (c : Char) : Option Nat :=
  if '0'.toNat ≤ c.toNat && c.toNat ≤ '9'.toNat then some (c.toNat - '0'.toNat)
  else if 'a'.toNat ≤ c.toNat && c.toNat ≤ 'f'.toNat then
    some (c.toNat - 'a'.toNat + 10)
  else if 'A'.toNat ≤ c.toNat && c.toNat ≤ 'F'.toNat then
    some (c.toNat - 'A'.toNat + 10)
  else none

def parseHex4 : List Char → Option (Nat × List Char)
  | a :: b :: c :: d :: rest =>
    match hexVal a, hexVal b, hexVal c, hexVal d with
    | some x, some y, some z, some w =>
      some (x * 4096 + y * 256 + z * 16 + w, rest)
    | _, _, _, _ => none
  | _ => none

def jsonEscChar : Char → Option Char
  | '"' => some '"'
  | '\\' => some '\\'
  | '/' => some '/'
  | 'b' => some (Char.ofNat 8)
  | 'f' => some (Char.ofNat 12)
  | 'n' => some '\n'
  | 'r' => some '\r'
  | 't' => some '\t'
  | _ => none

/-- Body of a JSON string literal after the opening quote; returns content
and the input after the closing quote.  Raw control characters are a parse
error, as in JSON.parse. -/
def parseStringBody : Nat → List Char → Option (List Char × List Char)
  | 0, _ => none
  | _ + 1, [] => none
  | f + 1, c :: cs =>
    if c = '"' then some ([], cs)
    else if c = '\\' then
      match cs with
      | 'u' :: rest =>
        match parseHex4 rest with
        | some (n, rest2) =>
          if 0xD800 ≤ n && n ≤ 0xDFFF then none
          else
            match parseStringBody f rest2 with
            | some (s, r) => some (Char.ofNat n :: s, r)
            | none => none
        | none => none
      | e :: rest =>
        match jsonEscChar e with
        | some ch =>
          match parseStringBody f rest with
          | some (s, r) => some (ch :: s, r)
          | none => none
        | none => none
      | [] => none
    else if c.toNat < 0x20 then none
    else
      match parseStringBody f cs with
      | some (s, r) => some (c :: s, r)
      | none => none

def parseExpPart (acc : List Char) (l : List Char) :
    Option (List Char × List Char) :=
  match l with
  | e :: rest =>
    if e = 'e' || e = 'E' then
      let (sg, rest2) :=
        match rest with
        | '+' :: r => ((['+'] : List Char), r)
        | '-' :: r => ((['-'] : List Char), r)
        | _ => (([] : List Char), rest)
      let ds := rest2.takeWhile Char.isDigit
      if ds.isEmpty then none
      else some (acc ++ e :: (sg ++ ds), rest2.drop ds.length)
    else some (acc, l)
  | [] => some (acc, [])

def parseFracPart (acc : List Char) (l : List Char) :
    Option (List Char × List Char) :=
  match l with
  | '.' :: rest =>
    let ds := rest.takeWhile Char.isDigit
    if ds.isEmpty then none
    else parseExpPart (acc ++ '.' :: ds) (rest.drop ds.length)
  | _ => parseExpPart acc l

/-- JSON number grammar (no leading zeros, mandatory digits after the
decimal point and the exponent marker); returns the literal characters. -/
def parseNumber (l : List Char) : Option (List Char × List Char) :=
  let (sign, l1) :=
    match l with
    | '-' :: r => ((['-'] : List Char), r)
    | _ => (([] : List Char), l)
  match l1 with
  | '0' :: r => parseFracPart (sign ++ ['0']) r
  | c :: r =>
    if c.isDigit then
      let ds := r.takeWhile Char.isDigit
      parseFracPart (sign ++ c :: ds) (r.drop ds.length)
    else none
  | [] => none

/-- Duplicate object keys: JSON.parse keeps the position of the first
occurrence and the value of the last. -/
def combineField (k : String) (v : Json) (fs : List (String × Json)) :
    List (String × Json) :=
  match fs.find? (fun kv => kv.1 = k) with
  | some kv => (k, kv.2) :: fs.filter (fun kv2 => kv2.1 ≠ k)
  | none => (k, v) :: fs

mutual

def parseValue : Nat → List Char → Option (Json × List Char)
  | 0, _ => none
  | f + 1, l =>
    match l with
    | 'n' :: rest =>
      if ['u', 'l', 'l'].isPrefixOf rest then some (Json.null, rest.drop 3)
      else none
    | 't' :: rest =>
      if ['r', 'u', 'e'].isPrefixOf rest then
        some (Json.bool true, rest.drop 3)
      else none
    | 'f' :: rest =>
      if ['a', 'l', 's', 'e'].isPrefixOf rest then
        some (Json.bool false, rest.drop 4)
      else none
    | '"' :: rest =>
      match parseStringBody (rest.length + 1) rest with
      | some (s, r) => some (Json.str (String.mk s), r)
      | none => none
    | '[' :: rest =>
      match rest.dropWhile isJsonWs with
      | ']' :: r2 => some (Json.arr JsonArr.nil, r2)
      | rest2 =>
        match parseElems f rest2 with
        | some (es, r) => some (Json.arr (JsonArr.ofList es), r)
        | none => none
    | '\x7b' :: rest =>
      match rest.dropWhile isJsonWs with
      | '\x7d' :: r2 => some (Json.obj JsonObj.nil, r2)
      | rest2 =>
        match parseMembers f rest2 with
        | some (fs, r) => some (Json.obj (JsonObj.ofList fs), r)
        | none => none
    | _ =>
      match parseNumber l with
      | some (raw, r) => some (Json.num (String.mk raw), r)
      | none => none

def parseElems : Nat → List Char → Option (List Json × List Char)
  | 0, _ => none
  | f + 1, l =>
    match parseValue f l with
    | none => none
    | some (v, r) =>
      match r.dropWhile isJsonWs with
      | ',' :: r2 =>
        match parseElems f (r2.dropWhile isJsonWs) with
        | some (es, r3) => some (v :: es, r3)
        | none => none
      | ']' :: r2 => some ([v], r2)
      | _ => none

def parseMembers : Nat → List Char → Option (List (String × Json) × List Char)
  | 0, _ => none
  | f + 1, l =>
    match l with
    | '"' :: rest =>
      match parseStringBody (rest.length + 1) rest with
      | none => none
      | some (k, r) =>
        match r.dropWhile isJsonWs with
        | ':' :: r2 =>
          match parseValue f (r2.dropWhile isJsonWs) with
          | none => none
          | some (v, r3) =>
            match r3.dropWhile isJsonWs with
            | ',' :: r4 =>
              match parseMembers f (r4.dropWhile isJsonWs) with
              | some (fs, r5) => some (combineField (String.mk k) v fs, r5)
              | none => none
            | '\x7d' :: r4 => some ([(String.mk k, v)], r4)
            | _ => none
        | _ => none
    | _ => none

end

/-- JSON.parse as a total function: some value on success, none on any
syntax error. -/
def Json.parse (s : String) : Option Json :=
  match parseValue (s.data.length + 1) (s.data.dropWhile isJsonWs) with
  | some (v, rest) =>
    if (rest.dropWhile isJsonWs).isEmpty then some v else none
  | none => none

example : Json.parse "\x7b\"response\": \"hi\"\x7d" =
    some (Json.obj (JsonObj.ofList [("response", Json.str "hi")])) := rfl

example : Json.parse "\x7b\"output\":\"Hello\"" = none := rfl

example : Json.parse " [1, \"a\", null, true] " =
    some (Json.arr (JsonArr.ofList [Json.num "1", Json.str "a", Json.null,
      Json.bool true])) := rfl

/-! ## JSON.stringify and the response extraction chain -/

def toHex4 (n : Nat) : List Char :=
  let dig := fun (k : Nat) =>
    if k < 10 then Char.ofNat ('0'.toNat + k)
    else Char.ofNat ('a'.toNat + k - 10)
  [dig (n / 4096 % 16), dig (n / 256 % 16), dig (n / 16 % 16), dig (n % 16)]

/-- The escaping JSON.stringify applies inside string values. -/
def escJsonChar (c : Char) : List Char :=
  if c = '"' then ['\\', '"']
  else if c = '\\' then ['\\', '\\']
  else if c = '\n' then ['\\', 'n']
  else if c = '\r' then ['\\', 'r']
  else if c = '\t' then ['\\', 't']
  else if c = Char.ofNat 8 then ['\\', 'b']
  else if c = Char.ofNat 12 then ['\\', 'f']
  else if c.toNat < 0x20 then '\\' :: 'u' :: toHex4 c.toNat
  else [c]

def quoteJson (s : String) : List Char :=
  '"' :: ((s.data.map escJsonChar).flatten ++ ['"'])

mutual

/-- Compact JSON serialization, as JSON.stringify with no spacing
argument. -/
def stringifyV : Json → List Char
  | Json.null => "null".data
  | Json.bool true => "true".data
  | Json.bool false => "false".data
  | Json.num raw => raw.data
  | Json.str s => quoteJson s
  | Json.arr es => '[' :: (stringifyElems es ++ [']'])
  | Json.obj fs => '\x7b' :: (stringifyFields fs ++ ['\x7d'])
termination_by structural j => j

def stringifyElems : JsonArr → List Char
  | JsonArr.nil => []
  | JsonArr.cons j JsonArr.nil => stringifyV j
  | JsonArr.cons j rest => stringifyV j ++ ',' :: stringifyElems rest
termination_by structural a => a

def stringifyFields : JsonObj → List Char
  | JsonObj.nil => []
  | JsonObj.cons k v JsonObj.nil => quoteJson k ++ ':' :: stringifyV v
  | JsonObj.cons k v rest =>
    quoteJson k ++ ':' :: (stringifyV v ++ ',' :: stringifyFields rest)
termination_by structural o => o

end

def Json.stringify (j : Json) : String :=
  String.mk (stringifyV j)

example : Json.stringify
    (Json.obj (JsonObj.ofList [("a",
      Json.obj (JsonObj.ofList [("output", Json.str "* *")]))])) =
    "\x7b\"a\":\x7b\"output\":\"* *\"\x7d\x7d" := rfl

/-- Does the trimmed text start with an open brace or bracket (the guard
formatResponseText uses before attempting JSON.parse). -/
def looksLikeJson (text : String) : Bool :=
  jsStartsWith (jsTrim text) "\x7b" || jsStartsWith (jsTrim text) "["

/-- Lookup of an object property by key (first matching entry; the parser
already resolved duplicate keys). -/
def JsonObj.findVal : JsonObj → String → Option Json
  | JsonObj.nil, _ => none
  | JsonObj.cons k v tl, key =>
    if k = key then some v else JsonObj.findVal tl key

/-- Property access data[k] for a parsed value: a field of an object,
undefined (none) otherwise. -/
def getField (j : Json) (k : String) : Option Json :=
  match j with
  | Json.obj fs => fs.findVal k
  | _ => none

/-- The test of one chain branch: data[k] exists and is a string. -/
def fieldStr (j : Json) (k : String) : Option String :=
  match getField j k with
  | some (Json.str s) => some s
  | _ => none

/-- Is the digit part of a JSON number literal all zeros. -/
def numIsZero (raw : String) : Bool :=
  (raw.data.takeWhile (fun c => c ≠ 'e' && c ≠ 'E')).all
    (fun c => !c.isDigit || c = '0')

/-- JS truthiness of a parsed JSON value. -/
def jsTruthy : Json → Bool
  | Json.null => false
  | Json.bool b => b
  | Json.num raw => !numIsZero raw
  | Json.str s => s.length ≠ 0
  | Json.arr _ => true
  | Json.obj _ => true

/-- The ordered field-name chain of formatResponseText: output, response,
message, text, content, result, answer, data as a string, then (when the
data field is truthy) data.response, data.message, data.text. -/
def chainSrc (data : Json) : Option String :=
  fieldStr data "output" <|> fieldStr data "response" <|>
  fieldStr data "message" <|> fieldStr data "text" <|>
  fieldStr data "content" <|> fieldStr data "result" <|>
  fieldStr data "answer" <|> fieldStr data "data" <|>
  (match getField data "data" with
   | some d =>
     if jsTruthy d then
       fieldStr d "response" <|> fieldStr d "message" <|> fieldStr d "text"
     else none
   | none => none)

/-- First string of length above twenty among the elements of a parsed
array: the JS for-in scan over its index properties. -/
def firstLongStr : JsonArr → Option String
  | JsonArr.nil => none
  | JsonArr.cons (Json.str s) rest =>
    if s.length > 20 then some s else firstLongStr rest
  | JsonArr.cons _ rest => firstLongStr rest

/-- The JS for-in scan over the properties of a parsed object, in insertion
order. -/
def firstLongField : JsonObj → Option String
  | JsonObj.nil => none
  | JsonObj.cons _ (Json.str s) rest =>
    if s.length > 20 then some s else firstLongField rest
  | JsonObj.cons _ _ rest => firstLongField rest

/-- The branch cascade of formatResponseText after a successful parse.
none models the implicit undefined return for primitive parsed values,
which cannot occur for texts whose trimmed form starts with a brace or
bracket. -/
def extractFromParsed (data : Json) : Option String :=
  match data with
  | Json.str s => some (cleanHtmlAndFormatText s)
  | _ =>
    match chainSrc data with
    | some s => some (cleanHtmlAndFormatText s)
    | none =>
      match data with
      | Json.arr (JsonArr.cons (Json.str s) _) =>
        some (cleanHtmlAndFormatText s)
      | Json.arr es =>
        match firstLongStr es with
        | some s => some (cleanHtmlAndFormatText s)
        | none =>
          some ("Response: " ++
            cleanHtmlAndFormatText (Json.stringify (Json.arr es)))
      | Json.obj fs =>
        match firstLongField fs with
        | some s => some (cleanHtmlAndFormatText s)
        | none =>
          some ("Response: " ++
            cleanHtmlAndFormatText (Json.stringify (Json.obj fs)))
      | _ => none

/-- formatResponseText from the webhook service source. -/
def formatResponseText (text : String) : String :=
  if looksLikeJson text then
    match Json.parse text with
    | some data => (extractFromParsed data).getD "undefined"
    | none => cleanHtmlAndFormatText text
  else cleanHtmlAndFormatText text

/-- The response post-processing inlined in sendMessageToWebhook: an empty
or whitespace-only body yields a fixed fallback message, any other body is
passed to formatResponseText. -/
def webhookTextToMessage (textData : String) : String :=
  if textData = "" || jsTrim textData = "" then
    "Sorry, I received an empty response. Please try again."
  else formatResponseText textData

example : formatResponseText "\x7b\"response\": \"hi\"\x7d" = "hi" := rfl

example : formatResponseText "\x7b\"output\": \"A\", \"response\": \"B\"\x7d" =
    "A" := rfl

example : formatResponseText "plain text" = "plain text" := rfl

example : formatResponseText "\x7b\"output\":\"Hello\"" = "Hello" := rfl

example : formatResponseText "\x7b\"n\": 5\x7d" =
    "Response: \x7b\"n\":5\x7d" := rfl

example : formatResponseText "\x7b\"a\":\x7b\"output\":\"* *\"\x7d\x7d" =
    "Response: " := rfl

example : formatResponseText "[\"first elem\", 2]" = "first elem" := rfl

example : webhookTextToMessage "   " =
    "Sorry, I received an empty response. Please try again." := rfl

/-! ## The utterance playback controller as an event-step machine

The controller state of useSpeechSynthesis.ts consists of the utterance
queue and cursor refs, the cancellation flag, the isSpeaking state, and the
pending timers created by speak (the settle delay), the inter-chunk pause,
and the cancel grace delay.  The speech device is modelled as the list of
utterances handed to it and not yet ended; its cancel operation drops them
(without firing their callbacks, which the trace below does not rely on).
Each chunk carries a ghost session identifier recording which speak call
created it; the identifier is specification-only and does not influence any
transition.  speak is modelled under the assumption that the device and
voices are ready (otherwise it is an early-return no-op). -/

/-- The audible phrase prepended to the first chunk of every session. -/
def audibleLeadIn : String := "Lecture en cours : "

structure Chunk where
  text : String
  sid : Nat
deriving Repr, DecidableEq

structure SynthState where
  queue : List Chunk
  cursor : Nat
  cancelling : Bool
  isSpeaking : Bool
  pendingSettle : List (Nat × String)
  pendingNext : Nat
  pendingCancelReset : Nat
  device : List Chunk
  spoken : List Chunk
deriving Repr, DecidableEq

def initSynth : SynthState :=
  { queue := [], cursor := 0, cancelling := false, isSpeaking := false,
    pendingSettle := [], pendingNext := 0, pendingCancelReset := 0,
    device := [], spoken := [] }

/-- speakNextChunk: stop when the cancellation flag is set; stop, clear the
queue and reset the cursor when the cursor has passed the end; otherwise
take the utterance at the cursor (prepending the audible phrase and
mutating the queued utterance when it is the first chunk) and hand it to
the device. -/
def speakNextChunkStep (s : SynthState) : SynthState :=
  if s.cancelling then { s with isSpeaking := false }
  else if s.queue.length ≤ s.cursor then
    { s with isSpeaking := false, queue := [], cursor := 0 }
  else
    match s.queue.get? s.cursor with
    | none => s
    | some c =>
      let c2 :=
        if s.cursor = 0 then { c with text := audibleLeadIn ++ c.text } else c
      let q2 := if s.cursor = 0 then s.queue.set 0 c2 else s.queue
      { s with queue := q2, device := s.device ++ [c2] }

/-- The synchronous part of speak: no-op on blank text; otherwise set the
cancellation flag, cancel the device, and schedule the settle timer (which
the source never clears). -/
def speakStep (sid : Nat) (text : String) (s : SynthState) : SynthState :=
  if text = "" || jsTrim text = "" then s
  else
    { s with cancelling := true, device := [],
             pendingSettle := s.pendingSettle ++ [(sid, text)] }

/-- The settle-timer callback of speak: unconditionally clear the
cancellation flag, build the chunk queue from the processed text, reset
the cursor, report speaking, and start playback.  Settle timers all carry
the same delay, so they fire in scheduling order. -/
def settleStep (s : SynthState) : SynthState :=
  match s.pendingSettle with
  | [] => s
  | (sid, text) :: rest =>
    let s1 := { s with pendingSettle := rest, cancelling := false }
    let chunks := splitIntoSentences (processTextForSpeech text)
    if chunks.length = 0 then s1
    else
      speakNextChunkStep
        { s1 with queue := chunks.map (fun t => { text := t, sid := sid }),
                  cursor := 0, isSpeaking := true }

/-- The utterance onend callback: the device finishes its oldest in-flight
utterance; when the cancellation flag is set, report idle and stop;
otherwise advance the cursor and schedule the inter-chunk timer. -/
def deviceEndStep (s : SynthState) : SynthState :=
  match s.device with
  | [] => s
  | c :: rest =>
    let s1 := { s with device := rest, spoken := s.spoken ++ [c] }
    if s1.cancelling then { s1 with isSpeaking := false }
    else { s1 with cursor := s1.cursor + 1, pendingNext := s1.pendingNext + 1 }

/-- The inter-chunk timer callback: run speakNextChunk. -/
def interChunkStep (s : SynthState) : SynthState :=
  if s.pendingNext = 0 then s
  else speakNextChunkStep { s with pendingNext := s.pendingNext - 1 }

/-- The utterance onerror callback: the device drops its oldest in-flight
utterance; when the cancellation flag is set, report idle and stop;
otherwise report idle, clear the queue and reset the cursor. -/
def deviceErrorStep (s : SynthState) : SynthState :=
  match s.device with
  | [] => s
  | _ :: rest =>
    let s1 := { s with device := rest }
    if s1.cancelling then { s1 with isSpeaking := false }
    else { s1 with isSpeaking := false, queue := [], cursor := 0 }

/-- The cancel operation: no-op when not speaking; otherwise set the
cancellation flag, clear queue and cursor, cancel the device, report idle
and schedule the grace timer that clears the flag. -/
def cancelStep (s : SynthState) : SynthState :=
  if !s.isSpeaking then s
  else
    { s with cancelling := true, queue := [], cursor := 0, device := [],
             isSpeaking := false,
             pendingCancelReset := s.pendingCancelReset + 1 }

/-- The cancel grace-timer callback: clear the cancellation flag. -/
def cancelResetStep (s : SynthState) : SynthState :=
  if s.pendingCancelReset = 0 then s
  else { s with cancelling := false,
                pendingCancelReset := s.pendingCancelReset - 1 }

inductive SpeechEvent where
  | speakCall (sid : Nat) (text : String)
  | settleFire
  | interChunkFire
  | deviceEnd
  | deviceError
  | cancelCall
  | cancelResetFire
deriving Repr, DecidableEq

def speechStep : SpeechEvent → SynthState → SynthState
  | SpeechEvent.speakCall sid text => speakStep sid text
  | SpeechEvent.settleFire => settleStep
  | SpeechEvent.interChunkFire => interChunkStep
  | SpeechEvent.deviceEnd => deviceEndStep
  | SpeechEvent.deviceError => deviceErrorStep
  | SpeechEvent.cancelCall => cancelStep
  | SpeechEvent.cancelResetFire => cancelResetStep

def runSpeech (evs : List SpeechEvent) (s : SynthState) : SynthState :=
  evs.foldl (fun st e => speechStep e st) s

example :
    (runSpeech [SpeechEvent.speakCall 1 "Aa. Bb.", SpeechEvent.settleFire]
      initSynth).queue =
    [{ text := audibleLeadIn ++ "Aa.", sid := 1 }, { text := "Bb.", sid := 1 }] := by
  decide

example :
    (runSpeech [SpeechEvent.speakCall 1 "Aa. Bb.", SpeechEvent.settleFire]
      initSynth).device = [{ text := audibleLeadIn ++ "Aa.", sid := 1 }] := by
  decide

example :
    (runSpeech
      [SpeechEvent.speakCall 1 "First part. Second part.",
       SpeechEvent.speakCall 2 "Other text.",
       SpeechEvent.settleFire, SpeechEvent.settleFire]
      initSynth).device.map Chunk.sid = [1, 2] := by decide

example :
    (runSpeech
      [SpeechEvent.speakCall 1 "First part. Second part.",
       SpeechEvent.speakCall 2 "Other text.",
       SpeechEvent.settleFire, SpeechEvent.settleFire,
       SpeechEvent.deviceEnd]
      initSynth).spoken.map Chunk.sid = [1] := by decide

example :
    (runSpeech
      [SpeechEvent.speakCall 1 "First part. Second part.",
       SpeechEvent.speakCall 2 "Other text.",
       SpeechEvent.settleFire, SpeechEvent.settleFire,
       SpeechEvent.deviceEnd]
      initSynth).cursor = 1 := by decide

/-! ## Specification-side definitions

These definitions state properties the claims talk about; they are not part
of the source embedding. -/

/-- Does the character list contain a run of three or more newlines. -/
def hasTriple : List Char → Bool
  | [] => false
  | c :: cs =>
    if c = '\n' ∧ cs.head? = some '\n' ∧ cs.tail.head? = some '\n' then true
    else hasTriple cs

/-- Length of the leading newline run. -/
def nlRun (l : List Char) : Nat :=
  (l.takeWhile (fun c => c = '\n')).length

/-- A character of already-clean plain text: no angle bracket (also not up
to the ASCII case folding the tag patterns use), no markdown delimiter, no
escape backslash and no newline. -/
def plainChar (c : Char) : Bool :=
  c.toLower ≠ '<' && c ≠ '*' && c ≠ '_' && c ≠ '[' && c ≠ '\\' && c ≠ '\n'

/-- Does the string contain two adjacent spaces (used to state the
collapsed-whitespace part of the FormattedText invariant). -/
def hasDoubleSpace (s : String) : Bool :=
  containsSubL [' ', ' '] s.data

/-- Modelled from the spec's words, for comparison with the source chain:
search the candidate fields output, response, message, text, content,
result, answer, data in that order for a string-typed value, then one
level of nesting under data (data.response, data.message, data.text);
the first string-typed match wins. -/
def specChainFirst (o : JsonObj) : Option String :=
  fieldStr (Json.obj o) "output" <|> fieldStr (Json.obj o) "response" <|>
  fieldStr (Json.obj o) "message" <|> fieldStr (Json.obj o) "text" <|>
  fieldStr (Json.obj o) "content" <|> fieldStr (Json.obj o) "result" <|>
  fieldStr (Json.obj o) "answer" <|> fieldStr (Json.obj o) "data" <|>
  (match JsonObj.findVal o "data" with
   | some d =>
     fieldStr d "response" <|> fieldStr d "message" <|> fieldStr d "text"
   | none => none)

/-! ## Helper lemmas -/

theorem replScan_eq_self (m : List Char → Option (List Char × List Char))
    (f : Nat) (l : List Char)
    (h : ∀ c cs, (c :: cs) <:+ l → m (c :: cs) = none) :
    replScan m f l = l := by
  induction f generalizing l with
  | zero => rfl
  | succ f ih =>
    cases l with
    | nil => rfl
    | cons c cs =>
      have hm := h c cs (List.suffix_refl _)
      simp only [replScan, hm]
      exact congrArg (c :: ·) (ih cs (fun c' cs' hsuf =>
        h c' cs' (hsuf.trans (List.suffix_cons c cs))))

theorem nlRun_cons (c : Char) (cs : List Char) :
    nlRun (c :: cs) = if c = '\n' then nlRun cs + 1 else 0 := by
  by_cases h : c = '\n' <;> simp [nlRun, List.takeWhile_cons, h]

theorem head_ne_of_nlRun_zero {l : List Char} (h : nlRun l = 0) :
    l.head? ≠ some '\n' := by
  cases l with
  | nil => simp
  | cons c cs =>
    rw [nlRun_cons] at h
    split at h
    · omega
    · next hc => simpa using hc

theorem nlRun_dropWhile_nl (l : List Char) :
    nlRun (l.dropWhile (fun c => c = '\n')) = 0 := by
  induction l with
  | nil => simp [nlRun]
  | cons c cs ih =>
    by_cases h : c = '\n'
    · simpa [List.dropWhile_cons, h] using ih
    · simp [List.dropWhile_cons, h, nlRun_cons]

theorem nlRun_one {l : List Char} (h : nlRun l = 1) :
    ∃ rest, l = '\n' :: rest ∧ nlRun rest = 0 := by
  cases l with
  | nil => simp [nlRun] at h
  | cons c cs =>
    rw [nlRun_cons] at h
    split at h
    · next hc => exact ⟨cs, by rw [hc], by omega⟩
    · omega

theorem hasTriple_cons (c : Char) (cs : List Char) :
    hasTriple (c :: cs) =
      if c = '\n' ∧ cs.head? = some '\n' ∧ cs.tail.head? = some '\n' then true
      else hasTriple cs := rfl

theorem collapseNL_ok (f : Nat) (l : List Char) (hl : l.length ≤ f) :
    hasTriple (collapseNL f l) = false ∧
      nlRun (collapseNL f l) = min (nlRun l) 2 := by
  induction f generalizing l with
  | zero =>
    have : l = [] := List.eq_nil_of_length_eq_zero (Nat.le_zero.mp hl)
    subst this
    simp [collapseNL, hasTriple, nlRun]
  | succ f ih =>
    cases l with
    | nil => simp [collapseNL, hasTriple, nlRun]
    | cons c cs =>
      simp only [collapseNL]
      by_cases hc : c = '\n' ∧ cs.head? = some '\n' ∧ cs.tail.head? = some '\n'
      · rw [if_pos hc]
        obtain ⟨hc1, hc2, hc3⟩ := hc
        obtain ⟨x, cs1, rfl⟩ : ∃ x cs1, cs = x :: cs1 := by
          cases cs with
          | nil => simp at hc2
          | cons x t => exact ⟨x, t, rfl⟩
        have hx : x = '\n' := by simpa using hc2
        obtain ⟨y, cs2, rfl⟩ : ∃ y cs2, cs1 = y :: cs2 := by
          cases cs1 with
          | nil => simp at hc3
          | cons y t => exact ⟨y, t, rfl⟩
        have hy : y = '\n' := by simpa using hc3
        subst hc1; subst hx; subst hy
        have hlen : (('\n' :: '\n' :: cs2).dropWhile
            (fun x => x = '\n')).length ≤ f := by
          have h1 := (List.dropWhile_suffix
            (l := '\n' :: '\n' :: cs2) (fun x => x = '\n')).length_le
          simp only [List.length_cons] at hl h1 ⊢
          omega
        obtain ⟨iht, ihr⟩ := ih _ hlen
        rw [nlRun_dropWhile_nl] at ihr
        have hrec0 : nlRun (collapseNL f (('\n' :: '\n' :: cs2).dropWhile
            (fun x => x = '\n'))) = 0 := by omega
        have hhead := head_ne_of_nlRun_zero hrec0
        constructor
        · rw [hasTriple_cons, if_neg, hasTriple_cons, if_neg]
          · exact iht
          · rintro ⟨-, h2, -⟩; exact hhead h2
          · rintro ⟨-, -, h3⟩; exact hhead (by simpa using h3)
        · rw [nlRun_cons, if_pos rfl, nlRun_cons, if_pos rfl, hrec0]
          rw [nlRun_cons, if_pos rfl, nlRun_cons, if_pos rfl]
          omega
      · rw [if_neg hc]
        have hlen : cs.length ≤ f := by
          simp only [List.length_cons] at hl; omega
        obtain ⟨iht, ihr⟩ := ih cs hlen
        by_cases hc1 : c = '\n'
        · subst hc1
          have hcs : nlRun cs ≤ 1 := by
            rcases hn : cs.head? with - | x
            · cases cs with
              | nil => simp [nlRun]
              | cons a t => simp at hn
            · cases cs with
              | nil => simp at hn
              | cons a t =>
                have ha : a = x := by simpa using hn
                subst ha
                by_cases hx : a = '\n'
                · subst hx
                  have ht : t.head? ≠ some '\n' := by
                    intro hcontra
                    exact hc ⟨rfl, by simp, by simpa using hcontra⟩
                  rw [nlRun_cons, if_pos rfl]
                  cases t with
                  | nil => simp [nlRun]
                  | cons b u =>
                    have hb : b ≠ '\n' := by
                      intro hb; exact ht (by simp [hb])
                    rw [nlRun_cons, if_neg hb]
                · rw [nlRun_cons, if_neg hx]; omega
          constructor
          · rw [hasTriple_cons, if_neg]
            · exact iht
            rintro ⟨-, h2, h3⟩
            rcases Nat.lt_or_ge (nlRun cs) 1 with hle | hge
            · have h0 : nlRun cs = 0 := by omega
              have : nlRun (collapseNL f cs) = 0 := by omega
              exact head_ne_of_nlRun_zero this h2
            · have h1 : nlRun cs = 1 := by omega
              have hr1 : nlRun (collapseNL f cs) = 1 := by omega
              obtain ⟨rest, hre, hr0⟩ := nlRun_one hr1
              rw [hre] at h3
              exact head_ne_of_nlRun_zero hr0 (by simpa using h3)
          · rw [nlRun_cons, if_pos rfl, nlRun_cons, if_pos rfl]
            omega
        · constructor
          · rw [hasTriple_cons, if_neg]
            · exact iht
            rintro ⟨h1, -, -⟩; exact hc1 h1
          · rw [nlRun_cons, if_neg hc1, nlRun_cons, if_neg hc1]
            simp

theorem trimRightL_isPref (l : List Char) : trimRightL l <+: l := by
  induction l with
  | nil => exact List.prefix_refl _
  | cons c cs ih =>
    simp only [trimRightL]
    split
    · exact List.nil_prefix
    · exact (List.prefix_cons_inj c).mpr ih

theorem trimRightL_idem (l : List Char) :
    trimRightL (trimRightL l) = trimRightL l := by
  induction l with
  | nil => rfl
  | cons c cs ih =>
    simp only [trimRightL]
    split
    · rfl
    · next h =>
      simp only [trimRightL, ih]
      rw [if_neg h]

theorem dropWhile_head_not {p : Char → Bool} {l : List Char} {c : Char}
    {r : List Char} (h : l.dropWhile p = c :: r) : p c = false := by
  induction l with
  | nil => simp [List.dropWhile] at h
  | cons a as ih =>
    rw [List.dropWhile_cons] at h
    split at h
    · exact ih h
    · next ha =>
      injection h with h1 _
      subst h1
      simpa using ha

theorem jsTrimL_idem (l : List Char) : jsTrimL (jsTrimL l) = jsTrimL l := by
  unfold jsTrimL
  have hdw : (trimRightL (l.dropWhile isJsSpace)).dropWhile isJsSpace =
      trimRightL (l.dropWhile isJsSpace) := by
    rcases h : trimRightL (l.dropWhile isJsSpace) with - | ⟨c, r⟩
    · rfl
    · have hpre := trimRightL_isPref (l.dropWhile isJsSpace)
      rw [h] at hpre
      obtain ⟨t, ht⟩ := hpre
      have hc : isJsSpace c = false := dropWhile_head_not ht.symm
      rw [List.dropWhile_cons, hc]
      simp
  rw [hdw, trimRightL_idem]

theorem hasTriple_prefix_mono {l₁ l₂ : List Char} (h : l₁ <+: l₂)
    (ht : hasTriple l₁ = true) : hasTriple l₂ = true := by
  induction l₁ generalizing l₂ with
  | nil => simp [hasTriple] at ht
  | cons c cs ih =>
    obtain ⟨t, rfl⟩ := h
    rw [List.cons_append]
    rw [hasTriple_cons] at ht ⊢
    split at ht
    · next hc =>
      obtain ⟨hc1, hc2, hc3⟩ := hc
      rw [if_pos]
      refine ⟨hc1, ?_, ?_⟩
      · cases cs with
        | nil => simp at hc2
        | cons x u => simpa using hc2
      · cases cs with
        | nil => simp at hc2
        | cons x u =>
          cases u with
          | nil => simp at hc3
          | cons y w => simpa using hc3
    · next hc =>
      have := ih (List.prefix_append cs t) ht
      split
      · rfl
      · exact this

theorem hasTriple_suffix_mono {l₁ l₂ : List Char} (h : l₁ <:+ l₂)
    (ht : hasTriple l₁ = true) : hasTriple l₂ = true := by
  obtain ⟨t, rfl⟩ := h
  induction t with
  | nil => simpa using ht
  | cons c cs ih =>
    rw [List.cons_append, hasTriple_cons]
    split
    · rfl
    · exact ih

theorem hasTriple_jsTrimL {l : List Char} (h : hasTriple l = false) :
    hasTriple (jsTrimL l) = false := by
  by_contra hcontra
  have h1 : hasTriple (jsTrimL l) = true := by
    cases hx : hasTriple (jsTrimL l)
    · exact absurd hx hcontra
    · rfl
  have h2 := hasTriple_prefix_mono
    (trimRightL_isPref (l.dropWhile isJsSpace)) h1
  have h3 := hasTriple_suffix_mono (List.dropWhile_suffix isJsSpace) h2
  rw [h3] at h
  simp at h

theorem cleanAfterExtract_invariants (t : String) :
    jsTrim (cleanAfterExtract t) = cleanAfterExtract t ∧
      hasTriple (cleanAfterExtract t).data = false := by
  have key : ∀ X : List Char,
      jsTrim (String.mk (jsTrimL (collapseNL X.length X))) =
        String.mk (jsTrimL (collapseNL X.length X)) ∧
      hasTriple (jsTrimL (collapseNL X.length X)) = false := by
    intro X
    obtain ⟨h1, -⟩ := collapseNL_ok X.length X (Nat.le_refl _)
    refine ⟨?_, hasTriple_jsTrimL h1⟩
    show String.mk (jsTrimL (jsTrimL (collapseNL X.length X))) = _
    rw [jsTrimL_idem]
  simp only [cleanAfterExtract]
  exact key _

theorem cleanHtml_invariants (t : String) :
    jsTrim (cleanHtmlAndFormatText t) = cleanHtmlAndFormatText t ∧
      hasTriple (cleanHtmlAndFormatText t).data = false :=
  cleanAfterExtract_invariants _

theorem hasTriple_cons_ne {c : Char} (w : List Char) (hc : c ≠ '\n') :
    hasTriple (c :: w) = hasTriple w := by
  rw [hasTriple_cons, if_neg]
  · rintro ⟨h1, -, -⟩; exact hc h1

theorem hasTriple_label_append (y : List Char) :
    hasTriple ("Response: ".data ++ y) = hasTriple y := by
  show hasTriple ('R' :: 'e' :: 's' :: 'p' :: 'o' :: 'n' :: 's' :: 'e' ::
    ':' :: ' ' :: y) = hasTriple y
  rw [hasTriple_cons_ne _ (by decide), hasTriple_cons_ne _ (by decide),
    hasTriple_cons_ne _ (by decide), hasTriple_cons_ne _ (by decide),
    hasTriple_cons_ne _ (by decide), hasTriple_cons_ne _ (by decide),
    hasTriple_cons_ne _ (by decide), hasTriple_cons_ne _ (by decide),
    hasTriple_cons_ne _ (by decide), hasTriple_cons_ne _ (by decide)]

theorem extractFromParsed_shape (d : Json) {r : String}
    (h : extractFromParsed d = some r) :
    (∃ t, r = cleanHtmlAndFormatText t) ∨
      (∃ t, r = "Response: " ++ cleanHtmlAndFormatText t) := by
  cases d with
  | str s =>
    left
    refine ⟨s, ?_⟩
    simp only [extractFromParsed, Option.some.injEq] at h
    exact h.symm
  | null =>
    have hz : extractFromParsed Json.null = none := rfl
    rw [hz] at h
    exact absurd h (by simp)
  | bool b =>
    have hz : extractFromParsed (Json.bool b) = none := rfl
    rw [hz] at h
    exact absurd h (by simp)
  | num raw =>
    have hz : extractFromParsed (Json.num raw) = none := rfl
    rw [hz] at h
    exact absurd h (by simp)
  | arr es =>
    cases es with
    | nil =>
      right
      refine ⟨Json.stringify (Json.arr JsonArr.nil), ?_⟩
      have hz : extractFromParsed (Json.arr JsonArr.nil) =
          some ("Response: " ++
            cleanHtmlAndFormatText (Json.stringify (Json.arr JsonArr.nil))) := rfl
      rw [hz] at h
      simp only [Option.some.injEq] at h
      exact h.symm
    | cons hd tl =>
      by_cases hstr : ∃ s, hd = Json.str s
      · obtain ⟨s, rfl⟩ := hstr
        left
        refine ⟨s, ?_⟩
        have hz : extractFromParsed (Json.arr (JsonArr.cons (Json.str s) tl)) =
            some (cleanHtmlAndFormatText s) := rfl
        rw [hz] at h
        simp only [Option.some.injEq] at h
        exact h.symm
      · cases hd
        rotate_left 3
        · exact absurd ⟨_, rfl⟩ hstr
        all_goals
          (simp only [extractFromParsed, chainSrc, fieldStr, getField,
             Option.none_orElse] at h
           split at h
           next s2 heq =>
             left
             simp only [Option.some.injEq] at h
             exact ⟨s2, h.symm⟩
           next heq =>
             right
             simp only [Option.some.injEq] at h
             exact ⟨_, h.symm⟩)
  | obj fs =>
    rcases h1 : chainSrc (Json.obj fs) with - | s
    · rcases h2 : firstLongField fs with - | s2
      · right
        refine ⟨Json.stringify (Json.obj fs), ?_⟩
        simp only [extractFromParsed, h1, h2, Option.some.injEq] at h
        exact h.symm
      · left
        refine ⟨s2, ?_⟩
        simp only [extractFromParsed, h1, h2, Option.some.injEq] at h
        exact h.symm
    · left
      refine ⟨s, ?_⟩
      simp only [extractFromParsed, h1, Option.some.injEq] at h
      exact h.symm

theorem ne_angle_of_toLower {c : Char} (h : c.toLower ≠ '<') : c ≠ '<' := by
  intro hc
  subst hc
  exact h (by decide)

theorem litMatcher_none {p : Char} {ps repl : List Char} {c : Char}
    {cs : List Char} (h : c ≠ p) :
    litMatcher (p :: ps) repl (c :: cs) = none := by
  have hpre : (p :: ps).isPrefixOf (c :: cs) = false := by
    simp [List.isPrefixOf_cons₂]
    intro hc
    exact absurd hc.symm h
  simp [litMatcher, hpre]

theorem isPrefixCI_angle_none {ps : List Char} {c : Char} {cs : List Char}
    (h : c.toLower ≠ '<') : isPrefixCI ('<' :: ps) (c :: cs) = false := by
  simp only [isPrefixCI, Bool.and_eq_false_iff]
  left
  simp only [decide_eq_false_iff_not]
  show ¬ ('<'.toLower = c.toLower)
  intro hcontra
  exact h (by rw [← hcontra]; decide)

theorem altCIMatcher_none {pats : List (List Char)} {repl : List Char}
    {c : Char} {cs : List Char}
    (hp : ∀ p ∈ pats, ∃ ps, p = '<' :: ps) (hc : c.toLower ≠ '<') :
    altCIMatcher pats repl (c :: cs) = none := by
  have hfind : pats.find? (fun p => isPrefixCI p (c :: cs)) = none := by
    rw [List.find?_eq_none]
    intro p hmem
    obtain ⟨ps, rfl⟩ := hp p hmem
    simp [isPrefixCI_angle_none hc]
  simp [altCIMatcher, hfind]

theorem brMatcher_none {c : Char} {cs : List Char} (h : c ≠ '<') :
    brMatcher (c :: cs) = none := by
  unfold brMatcher
  split
  · next heq => injection heq with h1 _; exact absurd h1 h
  · rfl

theorem tagStarMatcher_none {c : Char} {cs : List Char} (h : c ≠ '<') :
    tagStarMatcher (c :: cs) = none := by
  unfold tagStarMatcher
  split
  · next heq => injection heq with h1 _; exact absurd h1 h
  · rfl

theorem hOpenMatcher_none {c : Char} {cs : List Char} (h : c ≠ '<') :
    hOpenMatcher (c :: cs) = none := by
  unfold hOpenMatcher
  split
  · next heq => injection heq with h1 _; exact absurd h1 h
  · rfl

theorem hCloseMatcher_none {c : Char} {cs : List Char} (h : c ≠ '<') :
    hCloseMatcher (c :: cs) = none := by
  unfold hCloseMatcher
  split
  · next heq => injection heq with h1 _; exact absurd h1 h
  · rfl

theorem linkMatcher_none {c : Char} {cs : List Char} (h : c ≠ '[') :
    linkMatcher (c :: cs) = none := by
  unfold linkMatcher
  split
  · next heq => injection heq with h1 _; exact absurd h1 h
  · rfl

theorem pairMatcher_none {a c : Char} {cs : List Char} (h : c ≠ a) :
    pairMatcher a (c :: cs) = none := by
  unfold pairMatcher
  cases cs with
  | nil => rfl
  | cons c2 rest => simp [h]

theorem singleMatcher_none {a c : Char} {cs : List Char} (h : c ≠ a) :
    singleMatcher a (c :: cs) = none := by
  unfold singleMatcher
  simp [h]

theorem collapseNL_id {f : Nat} {l : List Char}
    (h : ∀ c ∈ l, c ≠ '\n') : collapseNL f l = l := by
  induction f generalizing l with
  | zero => rfl
  | succ f ih =>
    cases l with
    | nil => rfl
    | cons c cs =>
      simp only [collapseNL]
      rw [if_neg]
      · exact congrArg (c :: ·) (ih (fun c' hc' => h c' (List.mem_cons_of_mem c hc')))
      · rintro ⟨h1, -, -⟩
        exact h c (List.mem_cons_self c cs) h1

theorem altCIMatcher_angle_none {pats : List (List Char)} {repl : List Char}
    {c : Char} {cs : List Char}
    (hp : ∀ p ∈ pats, p.head? = some '<') (hc : c.toLower ≠ '<') :
    altCIMatcher pats repl (c :: cs) = none := by
  have hfind : pats.find? (fun p => isPrefixCI p (c :: cs)) = none := by
    rw [List.find?_eq_none]
    intro p hmem
    cases p with
    | nil =>
      have hcontra := hp _ hmem
      simp at hcontra
    | cons q ps =>
      have hq : q = '<' := by simpa using hp _ hmem
      subst hq
      simp [isPrefixCI_angle_none hc]
  simp [altCIMatcher, hfind]

theorem cleanAfterExtract_fixpoint (t : String)
    (hplain : ∀ c ∈ t.data, plainChar c = true)
    (htrim : jsTrim t = t) :
    cleanAfterExtract t = t := by
  have hfacts : ∀ c ∈ t.data, c.toLower ≠ '<' ∧ c ≠ '*' ∧ c ≠ '_' ∧
      c ≠ '[' ∧ c ≠ '\\' ∧ c ≠ '\n' := by
    intro c hc
    have h := hplain c hc
    simp only [plainChar, Bool.and_eq_true, decide_eq_true_eq] at h
    exact ⟨h.1.1.1.1.1, h.1.1.1.1.2, h.1.1.1.2, h.1.1.2, h.1.2, h.2⟩
  have hmem : ∀ {c : Char} {cs : List Char}, (c :: cs) <:+ t.data →
      c ∈ t.data := fun hsuf => hsuf.subset (List.mem_cons_self _ _)
  have hangle : ∀ {c : Char} {cs : List Char}, (c :: cs) <:+ t.data →
      c.toLower ≠ '<' := fun hsuf => (hfacts _ (hmem hsuf)).1
  have hangleNe : ∀ {c : Char} {cs : List Char}, (c :: cs) <:+ t.data →
      c ≠ '<' := fun hsuf => ne_angle_of_toLower (hangle hsuf)
  have s1 : unescapeNewlines t.data = t.data :=
    replScan_eq_self _ _ _ (fun c cs hsuf =>
      litMatcher_none (hfacts _ (hmem hsuf)).2.2.2.2.1)
  have s2 : unescapeQuotes t.data = t.data :=
    replScan_eq_self _ _ _ (fun c cs hsuf =>
      litMatcher_none (hfacts _ (hmem hsuf)).2.2.2.2.1)
  have s3 : replScan brMatcher t.data.length t.data = t.data :=
    replScan_eq_self _ _ _ (fun c cs hsuf => brMatcher_none (hangleNe hsuf))
  have sci : ∀ (pats : List String) (repl : String),
      (∀ p ∈ pats.map String.data, p.head? = some '<') →
      replaceCIAlts pats repl t.data = t.data := fun pats repl hp =>
    replScan_eq_self _ _ _ (fun c cs hsuf =>
      altCIMatcher_angle_none hp (hangle hsuf))
  have s13 : replScan hOpenMatcher t.data.length t.data = t.data :=
    replScan_eq_self _ _ _ (fun c cs hsuf => hOpenMatcher_none (hangleNe hsuf))
  have s14 : replScan hCloseMatcher t.data.length t.data = t.data :=
    replScan_eq_self _ _ _ (fun c cs hsuf => hCloseMatcher_none (hangleNe hsuf))
  have s19 : replScan tagStarMatcher t.data.length t.data = t.data :=
    replScan_eq_self _ _ _ (fun c cs hsuf => tagStarMatcher_none (hangleNe hsuf))
  have s20 : replScan (pairMatcher '*') t.data.length t.data = t.data :=
    replScan_eq_self _ _ _ (fun c cs hsuf =>
      pairMatcher_none (hfacts _ (hmem hsuf)).2.1)
  have s21 : replScan (singleMatcher '*') t.data.length t.data = t.data :=
    replScan_eq_self _ _ _ (fun c cs hsuf =>
      singleMatcher_none (hfacts _ (hmem hsuf)).2.1)
  have s22 : replScan (pairMatcher '_') t.data.length t.data = t.data :=
    replScan_eq_self _ _ _ (fun c cs hsuf =>
      pairMatcher_none (hfacts _ (hmem hsuf)).2.2.1)
  have s23 : replScan (singleMatcher '_') t.data.length t.data = t.data :=
    replScan_eq_self _ _ _ (fun c cs hsuf =>
      singleMatcher_none (hfacts _ (hmem hsuf)).2.2.1)
  have s24 : replScan linkMatcher t.data.length t.data = t.data :=
    replScan_eq_self _ _ _ (fun c cs hsuf =>
      linkMatcher_none (hfacts _ (hmem hsuf)).2.2.2.1)
  have s25 : collapseNL t.data.length t.data = t.data :=
    collapseNL_id (fun c hc => (hfacts c hc).2.2.2.2.2)
  simp only [cleanAfterExtract]
  rw [s1, s2, s3,
    sci ["<p>"] "\n" (by decide), sci ["</p>"] "\n" (by decide),
    sci ["<li>"] "\n• " (by decide), sci ["</li>"] "" (by decide),
    sci ["<ul>"] "\n" (by decide), sci ["</ul>"] "\n" (by decide),
    sci ["<ol>"] "\n" (by decide), sci ["</ol>"] "\n" (by decide),
    s13, s14,
    sci ["<strong>", "<b>"] "" (by decide),
    sci ["</strong>", "</b>"] "" (by decide),
    sci ["<em>", "<i>"] "" (by decide),
    sci ["</em>", "</i>"] "" (by decide),
    s19, s20, s21, s22, s23, s24, s25]
  exact htrim

theorem formatResponseText_fixpoint (t : String)
    (hjson : looksLikeJson t = false)
    (hresp : jsStartsWith t "Response:" = false)
    (hplain : ∀ c ∈ t.data, plainChar c = true)
    (htrim : jsTrim t = t) :
    formatResponseText t = t := by
  have hstrip : stripResponseLabel t = t := by
    simp [stripResponseLabel, hresp]
  have hbrace : startsWithL ['\x7b'] (jsTrimL t.data) = false := by
    have h := hjson
    simp only [looksLikeJson, jsStartsWith, jsTrim, Bool.or_eq_false_iff] at h
    exact h.1
  have hext : extractOutputField t = t := by
    simp [extractOutputField, hbrace]
  unfold formatResponseText
  rw [hjson]
  simp only [Bool.false_eq_true, if_false]
  show cleanAfterExtract (extractOutputField (stripResponseLabel t)) = t
  rw [hstrip, hext]
  exact cleanAfterExtract_fixpoint t hplain htrim

theorem formatResponseText_not_json {s : String}
    (h : looksLikeJson s = false) :
    formatResponseText s = cleanHtmlAndFormatText s := by
  unfold formatResponseText
  rw [h]
  simp

theorem formatResponseText_parse_fail {s : String}
    (h1 : looksLikeJson s = true) (h2 : Json.parse s = none) :
    formatResponseText s = cleanHtmlAndFormatText s := by
  unfold formatResponseText
  rw [h1, h2]
  simp

theorem formatResponseText_parse_ok {s : String} {d : Json}
    (h1 : looksLikeJson s = true) (h2 : Json.parse s = some d) :
    formatResponseText s = (extractFromParsed d).getD "undefined" := by
  unfold formatResponseText
  rw [h1, h2]
  simp

theorem formatResponseText_noTriple (s : String) :
    hasTriple (formatResponseText s).data = false := by
  by_cases hl : looksLikeJson s
  · cases hp : Json.parse s with
    | none =>
      rw [formatResponseText_parse_fail hl hp]
      exact (cleanHtml_invariants s).2
    | some d =>
      rw [formatResponseText_parse_ok hl hp]
      cases he : extractFromParsed d with
      | none => decide
      | some r =>
        simp only [Option.getD_some]
        rcases extractFromParsed_shape d he with ⟨t, rfl⟩ | ⟨t, rfl⟩
        · exact (cleanHtml_invariants t).2
        · rw [String.data_append, hasTriple_label_append]
          exact (cleanHtml_invariants t).2
  · rw [formatResponseText_not_json (by simpa using hl)]
    exact (cleanHtml_invariants s).2

theorem parseValue_obj_starts {f : Nat} {l : List Char} {o : JsonObj}
    {rest : List Char} (h : parseValue f l = some (Json.obj o, rest)) :
    ∃ t, l = '\x7b' :: t := by
  cases f with
  | zero => simp [parseValue] at h
  | succ f =>
    unfold parseValue at h
    split at h
    all_goals try (repeat' (split at h))
    all_goals first | exact ⟨_, rfl⟩ | simp_all

theorem jsonWs_jsSpace {c : Char} (h : isJsonWs c = true) :
    isJsSpace c = true := by
  simp only [isJsonWs, Bool.or_eq_true, decide_eq_true_eq] at h
  rcases h with ((h | h) | h) | h <;> subst h <;> decide

theorem dropWhile_brace {l t : List Char}
    (h : l.dropWhile isJsonWs = '\x7b' :: t) :
    l.dropWhile isJsSpace = '\x7b' :: t := by
  induction l with
  | nil => simp [List.dropWhile] at h
  | cons c cs ih =>
    rw [List.dropWhile_cons] at h
    split at h
    · next hws =>
      have hsp := jsonWs_jsSpace hws
      rw [List.dropWhile_cons, if_pos hsp]
      exact ih h
    · next hws =>
      injection h with h1 h2
      subst h1; subst h2
      rw [List.dropWhile_cons, if_neg (by decide)]

theorem parse_obj_looksLikeJson {s : String} {o : JsonObj}
    (h : Json.parse s = some (Json.obj o)) : looksLikeJson s = true := by
  unfold Json.parse at h
  split at h
  · next v rest heq =>
    split at h
    · next =>
      have hv : v = Json.obj o := by simpa using h
      subst hv
      obtain ⟨t, ht⟩ := parseValue_obj_starts heq
      have hsp := dropWhile_brace ht
      have htrim : jsTrimL s.data = '\x7b' :: trimRightL t := by
        unfold jsTrimL
        rw [hsp]
        simp only [trimRightL]
        have hns : isJsSpace '\x7b' = false := by decide
        simp [hns]
      simp only [looksLikeJson, jsStartsWith, Bool.or_eq_true]
      left
      show startsWithL "\x7b".data (jsTrim s).data = true
      have hd : (jsTrim s).data = jsTrimL s.data := rfl
      rw [hd, htrim]
      simp [startsWithL, List.isPrefixOf]
    · simp at h
  · simp at h

theorem specChain_imp_chainSrc {o : JsonObj} {v : String}
    (h : specChainFirst o = some v) : chainSrc (Json.obj o) = some v := by
  unfold specChainFirst at h
  unfold chainSrc
  rcases h1 : fieldStr (Json.obj o) "output" with - | s1
  case some => simp only [h1, Option.some_orElse] at h ⊢; exact h
  simp only [h1, Option.none_orElse] at h ⊢
  rcases h2 : fieldStr (Json.obj o) "response" with - | s2
  case some => simp only [h2, Option.some_orElse] at h ⊢; exact h
  simp only [h2, Option.none_orElse] at h ⊢
  rcases h3 : fieldStr (Json.obj o) "message" with - | s3
  case some => simp only [h3, Option.some_orElse] at h ⊢; exact h
  simp only [h3, Option.none_orElse] at h ⊢
  rcases h4 : fieldStr (Json.obj o) "text" with - | s4
  case some => simp only [h4, Option.some_orElse] at h ⊢; exact h
  simp only [h4, Option.none_orElse] at h ⊢
  rcases h5 : fieldStr (Json.obj o) "content" with - | s5
  case some => simp only [h5, Option.some_orElse] at h ⊢; exact h
  simp only [h5, Option.none_orElse] at h ⊢
  rcases h6 : fieldStr (Json.obj o) "result" with - | s6
  case some => simp only [h6, Option.some_orElse] at h ⊢; exact h
  simp only [h6, Option.none_orElse] at h ⊢
  rcases h7 : fieldStr (Json.obj o) "answer" with - | s7
  case some => simp only [h7, Option.some_orElse] at h ⊢; exact h
  simp only [h7, Option.none_orElse] at h ⊢
  rcases h8 : fieldStr (Json.obj o) "data" with - | s8
  case some => simp only [h8, Option.some_orElse] at h ⊢; exact h
  simp only [h8, Option.none_orElse] at h ⊢
  have hg : getField (Json.obj o) "data" = JsonObj.findVal o "data" := rfl
  rw [hg]
  rcases h9 : JsonObj.findVal o "data" with - | d
  · rw [h9] at h; simp at h
  · rw [h9] at h
    have hobj : ∃ fs2, d = Json.obj fs2 := by
      cases d <;> first
        | exact ⟨_, rfl⟩
        | simp_all [fieldStr, getField]
    obtain ⟨fs2, rfl⟩ := hobj
    simpa [jsTruthy] using h

theorem takeWhile_all {p : Char → Bool} {l : List Char}
    (h : ∀ c ∈ l, p c = true) : l.takeWhile p = l := by
  induction l with
  | nil => rfl
  | cons c cs ih =>
    rw [List.takeWhile_cons, if_pos (h c (List.mem_cons_self c cs))]
    exact congrArg (c :: ·) (ih (fun c' hc' => h c' (List.mem_cons_of_mem c hc')))

theorem sentenceMatches_no_terminal {f : Nat} {l : List Char} (hf : 0 < f)
    (hne : l ≠ []) (h : ∀ c ∈ l, isTerminalPunct c = false) :
    sentenceMatches f l = [l] := by
  cases f with
  | zero => omega
  | succ f =>
    cases l with
    | nil => exact absurd rfl hne
    | cons c cs =>
      have hbody : (c :: cs).takeWhile (fun x => !isTerminalPunct x) =
          c :: cs :=
        takeWhile_all (fun c' hc' => by simp [h c' hc'])
      simp only [sentenceMatches]
      rw [if_neg (by simp [h c (List.mem_cons_self c cs)])]
      rw [hbody]
      simp

theorem sentenceMatches_all_terminal {f : Nat} {l : List Char}
    (hf : l.length ≤ f) (h : ∀ c ∈ l, isTerminalPunct c = true) :
    sentenceMatches f l = [] := by
  induction f generalizing l with
  | zero => rfl
  | succ f ih =>
    cases l with
    | nil => rfl
    | cons c cs =>
      simp only [sentenceMatches]
      rw [if_pos (h c (List.mem_cons_self c cs))]
      exact ih (by simp at hf; omega)
        (fun c' hc' => h c' (List.mem_cons_of_mem c hc'))

/-! ## Claim theorems -/

/-- C1: the claim states that calling speak with text A and then speak with
text B before any chunk of A has finished (including during the settle
delay of A) means no chunk of A is ever handed to the speech device or
vocalized after the session of B starts, every stale callback or timer
being discarded via the cancellation flag.  The code violates this: the
settle timer of A is never cleared and its callback unconditionally clears
the cancellation flag, so the superseded session A is still built.  In the
schedule below, speak of session 1 and speak of session 2 arrive during
the settle delay of session 1, both settle timers fire in order, and then
the device ends the utterance of session 1: the device queue holds the
first chunk of superseded session 1 in front of the chunk of session 2,
that chunk of session 1 is fully vocalized after the session of session 2
has started, its onend callback is honored (the cancellation flag is
clear), and it corrupts the cursor of session 2 from zero to one. -/
theorem c1_stale_settle_timer_superseded_session :
    ((runSpeech
      [SpeechEvent.speakCall 1 "First part. Second part.",
       SpeechEvent.speakCall 2 "Other text.",
       SpeechEvent.settleFire, SpeechEvent.settleFire]
      initSynth).device.map Chunk.sid = [1, 2]) ∧
    ((runSpeech
      [SpeechEvent.speakCall 1 "First part. Second part.",
       SpeechEvent.speakCall 2 "Other text.",
       SpeechEvent.settleFire, SpeechEvent.settleFire]
      initSynth).queue.map Chunk.sid = [2]) ∧
    ((runSpeech
      [SpeechEvent.speakCall 1 "First part. Second part.",
       SpeechEvent.speakCall 2 "Other text.",
       SpeechEvent.settleFire, SpeechEvent.settleFire,
       SpeechEvent.deviceEnd]
      initSynth).spoken.map Chunk.sid = [1]) ∧
    ((runSpeech
      [SpeechEvent.speakCall 1 "First part. Second part.",
       SpeechEvent.speakCall 2 "Other text.",
       SpeechEvent.settleFire, SpeechEvent.settleFire,
       SpeechEvent.deviceEnd]
      initSynth).cancelling = false) ∧
    ((runSpeech
      [SpeechEvent.speakCall 1 "First part. Second part.",
       SpeechEvent.speakCall 2 "Other text.",
       SpeechEvent.settleFire, SpeechEvent.settleFire,
       SpeechEvent.deviceEnd]
      initSynth).cursor = 1) := by
  refine ⟨?_, ?_, ?_, ?_, ?_⟩ <;> decide

/-- C2: for every input string that parses as a JSON object,
formatResponseText searches the candidate fields in the precedence order
output, response, message, text, content, result, answer, data, then the
nested data.response, data.message, data.text, and returns
cleanHtmlAndFormatText of the first string-typed match; an object with a
response field yields the cleaning of that field, and output takes
precedence over response. -/
theorem c2_field_precedence :
    (∀ (s : String) (o : JsonObj) (v : String),
      Json.parse s = some (Json.obj o) → specChainFirst o = some v →
      formatResponseText s = cleanHtmlAndFormatText v) ∧
    formatResponseText "\x7b\"response\": \"hi\"\x7d" =
      cleanHtmlAndFormatText "hi" ∧
    formatResponseText "\x7b\"output\": \"A\", \"response\": \"B\"\x7d" =
      cleanHtmlAndFormatText "A" := by
  refine ⟨?_, rfl, rfl⟩
  intro s o v h1 h2
  have hl := parse_obj_looksLikeJson h1
  rw [formatResponseText_parse_ok hl h1]
  have hc := specChain_imp_chainSrc h2
  simp [extractFromParsed, hc]

/-- C2 witness: the precedence theorem applied to a concrete object whose
message is under the text field. -/
theorem c2_field_precedence_witness :
    Json.parse "\x7b\"text\": \"T\"\x7d" =
      some (Json.obj (JsonObj.ofList [("text", Json.str "T")])) ∧
    specChainFirst (JsonObj.ofList [("text", Json.str "T")]) = some "T" ∧
    formatResponseText "\x7b\"text\": \"T\"\x7d" =
      cleanHtmlAndFormatText "T" :=
  ⟨rfl, rfl, c2_field_precedence.1 _ _ _ rfl rfl⟩

/-- C3: formatResponseText is total (it is a Lean function) and never
throws: on input that does not look like JSON it returns the best-effort
cleaning of the raw text, on a parse failure it likewise falls back to
cleaning the raw text, and on a parsed object with no string-typed chain
field and no string property longer than twenty characters it returns the
stringified fallback labeled Response. -/
theorem c3_total_with_fallbacks :
    (∀ s : String, looksLikeJson s = false →
      formatResponseText s = cleanHtmlAndFormatText s) ∧
    (∀ s : String, looksLikeJson s = true → Json.parse s = none →
      formatResponseText s = cleanHtmlAndFormatText s) ∧
    (∀ (s : String) (o : JsonObj),
      Json.parse s = some (Json.obj o) → chainSrc (Json.obj o) = none →
      firstLongField o = none →
      formatResponseText s =
        "Response: " ++ cleanHtmlAndFormatText (Json.stringify (Json.obj o))) := by
  refine ⟨?_, ?_, ?_⟩
  · intro s h
    exact formatResponseText_not_json h
  · intro s h1 h2
    exact formatResponseText_parse_fail h1 h2
  · intro s o h1 h2 h3
    have hl := parse_obj_looksLikeJson h1
    rw [formatResponseText_parse_ok hl h1]
    simp [extractFromParsed, h2, h3]

/-- C3 witness: the fallback equations applied to concrete inputs: plain
text, malformed JSON, and an object of unknown shape. -/
theorem c3_total_with_fallbacks_witness :
    looksLikeJson "plain text" = false ∧
    formatResponseText "plain text" = cleanHtmlAndFormatText "plain text" ∧
    looksLikeJson "\x7bbroken" = true ∧
    Json.parse "\x7bbroken" = none ∧
    formatResponseText "\x7bbroken" = cleanHtmlAndFormatText "\x7bbroken" ∧
    Json.parse "\x7b\"n\": 5\x7d" =
      some (Json.obj (JsonObj.ofList [("n", Json.num "5")])) ∧
    formatResponseText "\x7b\"n\": 5\x7d" =
      "Response: " ++ cleanHtmlAndFormatText
        (Json.stringify (Json.obj (JsonObj.ofList [("n", Json.num "5")]))) :=
  ⟨rfl, c3_total_with_fallbacks.1 _ rfl, rfl, rfl,
    c3_total_with_fallbacks.2.1 _ rfl rfl, rfl,
    c3_total_with_fallbacks.2.2 _ _ rfl rfl rfl⟩

/-- C4: for every input string that is empty or whitespace-only, the
response handling of sendMessageToWebhook returns the fixed empty-response
fallback message, which is not the empty string. -/
theorem c4_empty_input_fallback :
    (∀ s : String, jsTrim s = "" →
      webhookTextToMessage s =
        "Sorry, I received an empty response. Please try again.") ∧
    ("Sorry, I received an empty response. Please try again." ≠ "") := by
  refine ⟨?_, by decide⟩
  intro s h
  unfold webhookTextToMessage
  rw [h]
  simp

/-- C4 witness: the fallback equation applied to a whitespace-only body. -/
theorem c4_empty_input_fallback_witness :
    jsTrim "   " = "" ∧
    webhookTextToMessage "   " =
      "Sorry, I received an empty response. Please try again." :=
  ⟨rfl, c4_empty_input_fallback.1 "   " rfl⟩

/-- C5 counterexample: the input below is malformed JSON (unparsable
overall) and contains an output field whose value is the string Hello, yet
formatResponseText does not extract Hello: the regex fallback only runs
when the trimmed text starts with an open brace, and this text starts with
an open bracket, so the whole mangled text is returned unchanged. -/
theorem c5_regex_fallback_counterexample :
    Json.parse "[1, \x7b\"output\":\"Hello\"" = none ∧
    jsIncludes "[1, \x7b\"output\":\"Hello\"" "\"output\"" = true ∧
    outputCapture ("[1, \x7b\"output\":\"Hello\"".data.length + 1)
      "[1, \x7b\"output\":\"Hello\"".data = some "Hello".data ∧
    formatResponseText "[1, \x7b\"output\":\"Hello\"" =
      "[1, \x7b\"output\":\"Hello\"" ∧
    formatResponseText "[1, \x7b\"output\":\"Hello\"" ≠ "Hello" := by
  refine ⟨rfl, rfl, rfl, rfl, by decide⟩

/-- C5 amended: when the trimmed malformed text starts with an open brace
(not a bracket), does not carry a leading Response: label, contains a
quoted output key, fails to parse as JSON, and the output-field regex
captures a nonempty value, formatResponseText proceeds with that captured
value (escaped newlines and quotes unescaped) through the remaining
cleaning stages; in particular the malformed text consisting of an open
brace and an output field holding Hello yields Hello. -/
theorem c5_output_regex_fallback :
    (∀ (s : String) (cap : List Char),
      jsStartsWith s "Response:" = false →
      startsWithL ['\x7b'] (jsTrimL s.data) = true →
      jsIncludes s "\"output\"" = true →
      Json.parse s = none →
      outputCapture (s.data.length + 1) s.data = some cap →
      cap ≠ [] →
      formatResponseText s =
        cleanAfterExtract (String.mk (unescapeQuotes (unescapeNewlines cap)))) ∧
    formatResponseText "\x7b\"output\":\"Hello\"" = "Hello" := by
  refine ⟨?_, rfl⟩
  intro s cap h1 h2 h3 h4 h5 h6
  have hl : looksLikeJson s = true := by
    simp only [looksLikeJson, jsStartsWith, Bool.or_eq_true]
    left
    exact h2
  rw [formatResponseText_parse_fail hl h4]
  unfold cleanHtmlAndFormatText
  have hstrip : stripResponseLabel s = s := by
    simp [stripResponseLabel, h1]
  rw [hstrip]
  have hemp : cap.isEmpty = false := by
    cases cap with
    | nil => exact absurd rfl h6
    | cons c cs => rfl
  have hext : extractOutputField s =
      String.mk (unescapeQuotes (unescapeNewlines cap)) := by
    unfold extractOutputField
    rw [h2, h3, h5]
    simp [hemp]
  rw [hext]

/-- C5 witness: the amended fallback applied to a concrete malformed
input. -/
theorem c5_output_regex_fallback_witness :
    formatResponseText "\x7b\"output\":\"Hi\" x" =
      cleanAfterExtract (String.mk (unescapeQuotes (unescapeNewlines
        "Hi".data))) :=
  c5_output_regex_fallback.1 "\x7b\"output\":\"Hi\" x" "Hi".data
    rfl rfl rfl rfl rfl (by decide)

/-- C6: chunking splits normalized text at terminal punctuation with the
punctuation kept attached, segments trimmed and empty segments dropped;
trimmed text with no terminal punctuation yields exactly one chunk equal
to the whole text, and the three-sentence example splits into its three
sentences with punctuation attached. -/
theorem c6_sentence_chunking :
    (∀ s : String, jsTrim s = s →
      (∀ c ∈ s.data, isTerminalPunct c = false) →
      splitIntoSentences s = [s]) ∧
    splitIntoSentences "Hello world. How are you? Fine!" =
      ["Hello world.", "How are you?", "Fine!"] := by
  refine ⟨?_, by decide⟩
  intro s h1 h2
  by_cases hne : s.data = []
  · have hs : sentenceMatches (s.data.length + 1) s.data = [] := by
      rw [hne]; rfl
    simp only [splitIntoSentences, hs]
  · have hs : sentenceMatches (s.data.length + 1) s.data = [s.data] :=
      sentenceMatches_no_terminal (by omega) hne h2
    simp only [splitIntoSentences, hs]
    have htl : jsTrimL s.data = s.data := congrArg String.data h1
    have heta : String.mk s.data = s := rfl
    simp only [List.map, htl, heta]
    have hlen : s.length > 0 := by
      show s.data.length > 0
      cases hd : s.data with
      | nil => exact absurd hd hne
      | cons c cs => simp [hd]
    simp [List.filter, hlen]

/-- C6 witness: the no-terminal-punctuation case applied to a concrete
trimmed text. -/
theorem c6_sentence_chunking_witness :
    splitIntoSentences "Hello there" = ["Hello there"] :=
  c6_sentence_chunking.1 "Hello there" rfl (by decide)

/-- C7 counterexample: the input below is non-empty plain text, free of
HTML and Markdown markup (every character satisfies plainChar) and
whitespace-normalized (it is its own trim), yet format of format of it
differs from format of it: each application strips one leading Response:
label, so the first application yields the text with one label and the
second strips the next one. -/
theorem c7_idempotence_counterexample :
    ("Response: Response: hi" ≠ "") ∧
    "Response: Response: hi".data.all plainChar = true ∧
    jsTrim "Response: Response: hi" = "Response: Response: hi" ∧
    formatResponseText "Response: Response: hi" = "Response: hi" ∧
    formatResponseText (formatResponseText "Response: Response: hi") = "hi" ∧
    formatResponseText (formatResponseText "Response: Response: hi") ≠
      formatResponseText "Response: Response: hi" := by
  refine ⟨by decide, by decide, rfl, rfl, rfl, by decide⟩

/-- C7 amended: format is a fixed point on non-empty already-clean text
(no markup characters, so every character satisfies plainChar, trimmed,
not looking like JSON) provided the text does not begin with the literal
Response: label; idempotence at such text follows. -/
theorem c7_format_idempotent_on_clean :
    ∀ x : String, x ≠ "" → looksLikeJson x = false →
      jsStartsWith x "Response:" = false →
      (∀ c ∈ x.data, plainChar c = true) → jsTrim x = x →
      formatResponseText x = x ∧
        formatResponseText (formatResponseText x) = formatResponseText x := by
  intro x hne hjson hresp hplain htrim
  have hfix := formatResponseText_fixpoint x hjson hresp hplain htrim
  exact ⟨hfix, by rw [hfix]; exact hfix⟩

/-- C7 witness: the amended idempotence applied to a concrete clean
text. -/
theorem c7_format_idempotent_on_clean_witness :
    formatResponseText "hello world" = "hello world" ∧
    formatResponseText (formatResponseText "hello world") =
      formatResponseText "hello world" :=
  c7_format_idempotent_on_clean "hello world" (by decide) rfl rfl
    (by decide) rfl

/-- C8 counterexample: the FormattedText invariant fails as stated: the
output of format on a plain text with two adjacent spaces keeps both
spaces (whitespace is not collapsed), and on an object whose stringified
fallback cleans to the empty string the labeled fallback ends with a
trailing space (the output is not trimmed). -/
theorem c8_invariant_counterexample :
    formatResponseText "a  b" = "a  b" ∧
    hasDoubleSpace (formatResponseText "a  b") = true ∧
    formatResponseText "\x7b\"a\":\x7b\"output\":\"* *\"\x7d\x7d" =
      "Response: " ∧
    jsTrim (formatResponseText "\x7b\"a\":\x7b\"output\":\"* *\"\x7d\x7d") ≠
      formatResponseText "\x7b\"a\":\x7b\"output\":\"* *\"\x7d\x7d" := by
  refine ⟨rfl, rfl, rfl, by decide⟩

/-- C8 amended: for every input the output of format contains no run of
three or more consecutive newlines (at most one consecutive blank line),
and every output of the cleaning pipeline itself is trimmed of leading and
trailing whitespace; full whitespace collapsing and complete markup
removal do not hold, and the labeled Response: fallback can carry a
trailing space. -/
theorem c8_formatted_text_invariant :
    (∀ s : String, hasTriple (formatResponseText s).data = false) ∧
    (∀ t : String,
      jsTrim (cleanHtmlAndFormatText t) = cleanHtmlAndFormatText t) :=
  ⟨formatResponseText_noTriple, fun t => (cleanHtml_invariants t).1⟩

/-- C9: when the device reports an error on a chunk and cancellation is
not flagged, the controller reports idle, clears the queue and resets the
cursor, dropping the remaining chunks, and a later speak call builds and
plays a fresh session. -/
theorem c9_device_error_aborts_session :
    (∀ st : SynthState, st.cancelling = false → st.device ≠ [] →
      (deviceErrorStep st).isSpeaking = false ∧
        (deviceErrorStep st).queue = [] ∧ (deviceErrorStep st).cursor = 0) ∧
    ((runSpeech [SpeechEvent.speakCall 1 "Aa. Bb.", SpeechEvent.settleFire,
        SpeechEvent.deviceError] initSynth).queue = [] ∧
      (runSpeech [SpeechEvent.speakCall 1 "Aa. Bb.", SpeechEvent.settleFire,
        SpeechEvent.deviceError] initSynth).isSpeaking = false) ∧
    ((runSpeech [SpeechEvent.speakCall 1 "Aa. Bb.", SpeechEvent.settleFire,
        SpeechEvent.deviceError, SpeechEvent.speakCall 2 "New text.",
        SpeechEvent.settleFire] initSynth).isSpeaking = true ∧
      (runSpeech [SpeechEvent.speakCall 1 "Aa. Bb.", SpeechEvent.settleFire,
        SpeechEvent.deviceError, SpeechEvent.speakCall 2 "New text.",
        SpeechEvent.settleFire] initSynth).device.map Chunk.text =
        [audibleLeadIn ++ "New text."]) := by
  refine ⟨?_, ⟨by decide, by decide⟩, ⟨by decide, by decide⟩⟩
  intro st h1 h2
  cases hd : st.device with
  | nil => exact absurd hd h2
  | cons c rest =>
    unfold deviceErrorStep
    rw [hd]
    simp [h1]

/-- C9 witness: the error transition applied to a concrete mid-queue
state with one chunk in flight and one chunk still queued. -/
theorem c9_device_error_aborts_session_witness :
    (deviceErrorStep (runSpeech [SpeechEvent.speakCall 1 "Aa. Bb.",
      SpeechEvent.settleFire] initSynth)).isSpeaking = false ∧
    (deviceErrorStep (runSpeech [SpeechEvent.speakCall 1 "Aa. Bb.",
      SpeechEvent.settleFire] initSynth)).queue = [] ∧
    (deviceErrorStep (runSpeech [SpeechEvent.speakCall 1 "Aa. Bb.",
      SpeechEvent.settleFire] initSynth)).cursor = 0 :=
  c9_device_error_aborts_session.1 _ (by decide) (by decide)

/-- C10 counterexample: splitIntoSentences does not return a list with at
least one element for every input: on a single space the regex finds one
whitespace-only match, which is trimmed to the empty string and filtered
out, leaving the empty list. -/
theorem c10_split_counterexample :
    splitIntoSentences " " = [] := by decide

/-- C10 amended: the unfiltered single-chunk fallback applies exactly when
the sentence regex finds no match, namely when every character of the
input is terminal punctuation (including the empty input):
splitIntoSentences then returns the whole input untrimmed and unfiltered,
so the empty string yields one empty chunk; consequently speak on text
that preprocessing reduces to the empty string (three stars) builds a
playing one-chunk session whose utterance is the audible phrase followed
by nothing, instead of being a no-op. -/
theorem c10_split_no_match_fallback :
    (∀ s : String, (∀ c ∈ s.data, isTerminalPunct c = true) →
      splitIntoSentences s = [s]) ∧
    splitIntoSentences "" = [""] ∧
    processTextForSpeech "***" = "" ∧
    ((runSpeech [SpeechEvent.speakCall 1 "***", SpeechEvent.settleFire]
        initSynth).queue.map Chunk.text = [audibleLeadIn] ∧
      (runSpeech [SpeechEvent.speakCall 1 "***", SpeechEvent.settleFire]
        initSynth).device.map Chunk.text = [audibleLeadIn] ∧
      (runSpeech [SpeechEvent.speakCall 1 "***", SpeechEvent.settleFire]
        initSynth).isSpeaking = true) := by
  refine ⟨?_, by decide, by decide, by decide, by decide, by decide⟩
  intro s h
  have hs : sentenceMatches (s.data.length + 1) s.data = [] :=
    sentenceMatches_all_terminal (by omega) h
  simp only [splitIntoSentences, hs]

/-- C10 witness: the no-match fallback applied to a concrete all-terminal
input. -/
theorem c10_split_no_match_fallback_witness :
    splitIntoSentences "..." = ["..."] :=
  c10_split_no_match_fallback.1 "..." (by decide)
